import Mathlib

/-!
# Verification of the gym-locm environment adapter layer

Shallow embedding of the observation assemblers, action codec, turn
scheduler and draft evaluator of `gym_locm/envs/draft.py` and
`gym_locm/envs/battle.py`.  The rules engine, the per-card feature
encoders and the agents live outside these two files and are consumed
through a narrow contract; they are modelled here as abstract parameters
(functions passed explicitly), while everything the two environment
files compute themselves is translated definition by definition.
-/

namespace GymLocm

/-- The two player slots of the engine (`PlayerOrder.FIRST` / `SECOND`). -/
inductive PlayerOrder where
  | FIRST
  | SECOND
deriving DecidableEq, Repr

/-- The card attributes the adapter layer itself reads: the identifier
(`card.id`, used as the sort key of the canonical draft ordering) and the
mana cost (`card.cost`, used by the mana-curve block).  All other card
attributes are consumed only through the abstract feature encoders. -/
structure Card where
  id : Nat
  cost : Nat
deriving DecidableEq, Repr

/-! ## Fixed-capacity slot packer (`fill_cards`, battle.py lines 150-153)

`fill_cards(card_list, up_to, features)` returns
`card_list + [[0] * features for _ in range(up_to - len(card_list))]`.
Python's `range` of a negative number is empty, which coincides with
truncated subtraction on `Nat`. -/

/-- `fill_cards` from `LOCMBattleEnv._encode_state_battle`: pad an ordered
list of encoded cards with all-zero placeholder vectors up to `up_to`
entries. -/
def fill_cards (card_list : List (List ℤ)) (up_to : Nat) (features : Nat) :
    List (List ℤ) :=
  card_list ++ List.replicate (up_to - card_list.length) (List.replicate features 0)

theorem fill_cards_length (card_list : List (List ℤ)) (up_to features : Nat)
    (h : card_list.length ≤ up_to) :
    (fill_cards card_list up_to features).length = up_to := by
  simp [fill_cards]
  omega

theorem fill_cards_mem_length (card_list : List (List ℤ)) (up_to features : Nat)
    (hw : ∀ c ∈ card_list, c.length = features) :
    ∀ c ∈ fill_cards card_list up_to features, c.length = features := by
  intro c hc
  rcases List.mem_append.1 hc with h | h
  · exact hw c h
  · rw [List.eq_of_mem_replicate h]
    simp

/-- C9: for every ordered collection of encoded card vectors of length at
most the declared capacity, `fill_cards` returns exactly `up_to` entries:
the original vectors first, in their given order, followed by all-zero
placeholder vectors of the same feature width until the capacity is
reached. -/
theorem fill_cards_packs_to_capacity (card_list : List (List ℤ))
    (up_to features : Nat)
    (hw : ∀ c ∈ card_list, c.length = features)
    (hle : card_list.length ≤ up_to) :
    (fill_cards card_list up_to features).length = up_to ∧
    (fill_cards card_list up_to features).take card_list.length = card_list ∧
    (∀ c ∈ fill_cards card_list up_to features, c.length = features) ∧
    ∀ j, card_list.length ≤ j → j < up_to →
      (fill_cards card_list up_to features).getD j [] = List.replicate features 0 := by
  refine ⟨fill_cards_length _ _ _ hle, ?_,
    fill_cards_mem_length card_list up_to features hw, ?_⟩
  · exact List.take_left card_list _
  · intro j hj hj'
    unfold fill_cards
    rw [List.getD_append_right _ _ _ _ hj,
      List.getD_eq_getElem _ _ (by simp; omega), List.getElem_replicate]

/-- Witness for C9: two encoded cards of width 2 packed to capacity 4. -/
theorem fill_cards_packs_to_capacity_witness :
    (∀ c ∈ [[(1 : ℤ), 2], [3, 4]], c.length = 2) ∧
    ([[(1 : ℤ), 2], [3, 4]] : List (List ℤ)).length ≤ 4 ∧
    ((fill_cards [[(1 : ℤ), 2], [3, 4]] 4 2).length = 4 ∧
      (fill_cards [[(1 : ℤ), 2], [3, 4]] 4 2).take 2 = [[1, 2], [3, 4]] ∧
      (∀ c ∈ fill_cards [[(1 : ℤ), 2], [3, 4]] 4 2, c.length = 2) ∧
      ∀ j, 2 ≤ j → j < 4 →
        (fill_cards [[(1 : ℤ), 2], [3, 4]] 4 2).getD j [] = List.replicate 2 0) := by
  refine ⟨by decide, by decide, ?_⟩
  have h := fill_cards_packs_to_capacity [[(1 : ℤ), 2], [3, 4]] 4 2
    (by decide) (by decide)
  simpa using h

/-! ## Battle observation assembler (`LOCMBattleEnv`, battle.py) -/

/-- A player as seen by the battle observation assembler: a hand and a
list of board lanes (indexed `lanes[0]`, `lanes[1]` in the source). -/
structure BattlePlayer where
  hand : List Card
  lanes : List (List Card)
deriving Repr

/-- The declared battle observation length set in `LOCMBattleEnv.__init__`:
`player_features * 2 + cards_in_hand * card_features +
friendly_cards_on_board * friendly_board_card_features +
enemy_cards_on_board * enemy_board_card_features`
with `card_features = 16 if items else 12`. -/
def battle_state_shape (items : Bool) : Nat :=
  4 * 2 + 8 * (if items then 16 else 12) + 6 * 9 + 6 * 8

/-- `LOCMBattleEnv._encode_state_battle`, parameterised by the external
feature encoders (`encode_card`, `encode_friendly_card_on_board`,
`encode_enemy_card_on_board`, `encode_players` live in the base class,
outside this layer).  The source builds a flat numpy buffer and assigns
`encoded_state[:8] = players` and `encoded_state[8:] = all_cards`; with
well-formed encoder widths this is the concatenation below. -/
def _encode_state_battle (items : Bool)
    (encode_card : Card → List ℤ)
    (encode_friendly_card_on_board : Card → List ℤ)
    (encode_enemy_card_on_board : Card → List ℤ)
    (encode_players : BattlePlayer → BattlePlayer → List ℤ)
    (p0 p1 : BattlePlayer) : List ℤ :=
  let hand0 := p0.hand.map encode_card
  -- if not using items, clip card type features (`c[4:]`)
  let hand1 := if items then hand0 else hand0.map (List.drop 4)
  let hand := fill_cards hand1 8 (if items then 16 else 12)
  let fr0 := fill_cards ((p0.lanes.getD 0 []).map encode_friendly_card_on_board) 3 9
  let fr1 := fill_cards ((p0.lanes.getD 1 []).map encode_friendly_card_on_board) 3 9
  let en0 := fill_cards ((p1.lanes.getD 0 []).map encode_enemy_card_on_board) 3 8
  let en1 := fill_cards ((p1.lanes.getD 1 []).map encode_enemy_card_on_board) 3 8
  encode_players p0 p1 ++ (hand ++ fr0 ++ fr1 ++ en0 ++ en1).flatten

theorem flatten_length_of_widths (L : List (List ℤ)) (w : Nat)
    (h : ∀ l ∈ L, l.length = w) : L.flatten.length = L.length * w := by
  induction L with
  | nil => simp
  | cons hd tl ih =>
    simp only [List.flatten_cons, List.length_append, List.length_cons]
    rw [h hd (List.mem_cons_self hd tl), ih fun l hl => h l (List.mem_cons_of_mem hd hl)]
    ring

/-- C2: for every configuration of `LOCMBattleEnv`, the battle observation
is a flat vector of length `8 + 8*H_w + 2*3*9 + 2*3*8` where `H_w` is 16
with items enabled and 12 without (238 resp. 206), laid out as both
players' 8 scalar attributes, the acting player's hand packed to 8 slots,
the acting player's two lanes packed to 3 slots of 9 friendly features,
and the opponent's two lanes packed to 3 slots of 8 enemy features; the
length depends only on the `items` flag, hence is constant across
repeated resets of one instance. -/
theorem battle_observation_length (items : Bool)
    (encode_card encode_friendly encode_enemy : Card → List ℤ)
    (encode_players : BattlePlayer → BattlePlayer → List ℤ)
    (p0 p1 : BattlePlayer)
    (hp : (encode_players p0 p1).length = 8)
    (hc : ∀ c, (encode_card c).length = 16)
    (hf : ∀ c, (encode_friendly c).length = 9)
    (he : ∀ c, (encode_enemy c).length = 8)
    (hhand : p0.hand.length ≤ 8)
    (hl0 : ∀ i, (p0.lanes.getD i []).length ≤ 3)
    (hl1 : ∀ i, (p1.lanes.getD i []).length ≤ 3) :
    (_encode_state_battle items encode_card encode_friendly encode_enemy
        encode_players p0 p1).length = battle_state_shape items ∧
    battle_state_shape items = (if items then 238 else 206) ∧
    battle_state_shape items
      = 8 + 8 * (if items then 16 else 12) + 2 * 3 * 9 + 2 * 3 * 8 := by
  refine ⟨?_, by cases items <;> rfl, by cases items <;> rfl⟩
  unfold _encode_state_battle
  simp only [List.flatten_append, List.length_append, hp]
  have hhand1 : ∀ c ∈ (if items then p0.hand.map encode_card
      else (p0.hand.map encode_card).map (List.drop 4)),
      c.length = (if items then 16 else 12) := by
    cases items <;> simp only [if_true, if_false, Bool.false_eq_true, ite_true, ite_false]
    · intro c hcmem
      rcases List.mem_map.1 hcmem with ⟨d, hd, rfl⟩
      rcases List.mem_map.1 hd with ⟨card, _, rfl⟩
      simp [hc card]
    · intro c hcmem
      rcases List.mem_map.1 hcmem with ⟨card, _, rfl⟩
      exact hc card
  have hhandlen : (if items then p0.hand.map encode_card
      else (p0.hand.map encode_card).map (List.drop 4)).length ≤ 8 := by
    cases items <;> simpa using hhand
  have h1 := flatten_length_of_widths
    (fill_cards (if items then p0.hand.map encode_card
      else (p0.hand.map encode_card).map (List.drop 4)) 8 (if items then 16 else 12))
    (if items then 16 else 12)
    (fill_cards_mem_length _ _ _ hhand1)
  rw [fill_cards_length _ _ _ hhandlen] at h1
  have lanelen : ∀ (p : BattlePlayer) (enc : Card → List ℤ) (i : Nat) (w : Nat),
      (∀ c, (enc c).length = w) → (∀ i, (p.lanes.getD i []).length ≤ 3) →
      (fill_cards ((p.lanes.getD i []).map enc) 3 w).flatten.length = 3 * w := by
    intro p enc i w hw hcap
    have := flatten_length_of_widths (fill_cards ((p.lanes.getD i []).map enc) 3 w) w
      (fill_cards_mem_length _ _ _ (by
        intro c hcmem
        rcases List.mem_map.1 hcmem with ⟨card, _, rfl⟩
        exact hw card))
    rw [fill_cards_length _ _ _ (by simpa using hcap i)] at this
    exact this
  rw [h1, lanelen p0 encode_friendly 0 9 hf hl0, lanelen p0 encode_friendly 1 9 hf hl0,
    lanelen p1 encode_enemy 0 8 he hl1, lanelen p1 encode_enemy 1 8 he hl1]
  cases items <;> rfl

/-! ## Draft action remapping (`LOCMDraftEnv.step`, draft.py lines 108-112)

```
if 0 <= action.origin < self.k:
    chosen_index = self.draft_ordering[action.origin]
else:
    chosen_index = 0
```
-/

/-- The hand index selected by a decoded draft action with origin `origin`,
given the per-turn `draft_ordering` (draft.py lines 108-112). -/
def chosen_index (k : Nat) (draft_ordering : List Nat) (origin : Int) : Nat :=
  if 0 ≤ origin ∧ origin < (k : Int) then draft_ordering.getD origin.toNat 0
  else 0

/-- C5: a decoded draft action with origin `o` selects hand index
`draft_ordering[o]` when `0 ≤ o < k` and defaults to hand index 0
otherwise; for `k = 3` and any permutation held in `draft_ordering`, the
codes 0, 1, 2 select three distinct hand indices equal to the permutation
applied to 0, 1, 2. -/
theorem chosen_index_applies_permutation (draft_ordering : List Nat)
    (hperm : draft_ordering.Perm [0, 1, 2]) :
    ([0, 1, 2].map fun o : Int => chosen_index 3 draft_ordering o)
        = draft_ordering ∧
    draft_ordering.Nodup ∧
    (∀ o : Int, o < 0 ∨ 3 ≤ o → chosen_index 3 draft_ordering o = 0) := by
  have hlen : draft_ordering.length = 3 := hperm.length_eq
  have hnodup : draft_ordering.Nodup := hperm.nodup_iff.2 (by decide)
  refine ⟨?_, hnodup, ?_⟩
  · match draft_ordering, hlen with
    | [a, b, c], _ => rfl
  · intro o ho
    unfold chosen_index
    rw [if_neg]
    omega

/-- Witness for C5 at the concrete permutation `[2, 0, 1]`. -/
theorem chosen_index_applies_permutation_witness :
    ([2, 0, 1] : List Nat).Perm [0, 1, 2] ∧
    (([0, 1, 2].map fun o : Int => chosen_index 3 [2, 0, 1] o) = [2, 0, 1] ∧
      ([2, 0, 1] : List Nat).Nodup ∧
      (∀ o : Int, o < 0 ∨ 3 ≤ o → chosen_index 3 [2, 0, 1] o = 0)) :=
  ⟨by decide, chosen_index_applies_permutation [2, 0, 1] (by decide)⟩

/-- Witness for C2 at a concrete configuration (items enabled, empty
hand and lanes, constant encoders). -/
theorem battle_observation_length_witness :
    ((fun _ : BattlePlayer => (fun _ : BattlePlayer => List.replicate 8 (0 : ℤ)))
        ⟨[], []⟩ ⟨[], []⟩).length = 8 ∧
    (_encode_state_battle true (fun _ => List.replicate 16 0)
        (fun _ => List.replicate 9 0) (fun _ => List.replicate 8 0)
        (fun _ _ => List.replicate 8 0) ⟨[], []⟩ ⟨[], []⟩).length
      = battle_state_shape true ∧
    battle_state_shape true = 238 := by
  have h := battle_observation_length true (fun _ => List.replicate 16 0)
    (fun _ => List.replicate 9 0) (fun _ => List.replicate 8 0)
    (fun _ _ => List.replicate 8 0) ⟨[], []⟩ ⟨[], []⟩
    (by simp) (by intro c; simp) (by intro c; simp) (by intro c; simp)
    (by simp) (by intro i; cases i <;> simp) (by intro i; cases i <;> simp)
  exact ⟨by simp, h.1, by simpa using h.2.1⟩

/-! ## Step input validation (battle.py lines 69-87, draft.py lines 85-103)

Both `step` methods share the same prologue:

```
if self._phase_is_finished:
    raise GameIsEndedError()
if not isinstance(action, Action):
    try:
        action = int(action)
    except ValueError:
        raise MalformedActionError(...)
    action = self.decode_action(action)
```
-/

/-- The outcome of Python's `int(x)` on a step argument that is not an
`Action` object: an integer, a `ValueError` (e.g. `int("abc")`), or a
`TypeError` (e.g. `int(None)`, `int([1, 2])`).  The source's
`except ValueError` catches only the second case; a `TypeError`
propagates to the caller unhandled. -/
inductive CoerceOutcome where
  | ok (n : Int)
  | valueError
  | typeError
deriving DecidableEq, Repr

/-- A value passed to `step`: either a structured `Action` object (already
of the decoded type `A`) or any other Python object, represented by what
`int(...)` does to it. -/
inductive ActionInput (A : Type) where
  | action (a : A)
  | pyObject (coerce : CoerceOutcome)

/-- The exceptional outcomes of a `step` call: the two adapter-raised
errors from `gym_locm.exceptions`, plus the `TypeError` that escapes the
`except ValueError` handler. -/
inductive StepError where
  | GameIsEndedError
  | MalformedActionError
  | uncaughtTypeError
deriving DecidableEq, Repr

/-- The shared `step` prologue: raise `GameIsEndedError` when the phase is
finished, pass `Action` objects through, coerce anything else with
`int(...)` — only a `ValueError` becomes `MalformedActionError` — then
decode the integer and run the remainder `rest` of the step body.  On an
error nothing of `rest` (decoding aside, no engine call) is evaluated and
no successor state is produced. -/
def step_guard {A R : Type} (phase_is_finished : Bool) (decode_action : Int → A)
    (rest : A → R) (input : ActionInput A) : Except StepError R :=
  if phase_is_finished then .error .GameIsEndedError
  else
    match input with
    | .action a => .ok (rest a)
    | .pyObject (.ok n) => .ok (rest (decode_action n))
    | .pyObject .valueError => .error .MalformedActionError
    | .pyObject .typeError => .error .uncaughtTypeError

/-! ## Battle engine contract and `LOCMBattleEnv.step` (battle.py 69-118)

The rules engine and the action decoder live outside `src/`
(`gym_locm/engine.py`, `gym_locm/envs/base_env.py`); they are consumed
through the narrow contract below. -/

/-- The engine operations `LOCMBattleEnv` consumes: `decode_action` (from
the base class; may yield no applicable action, `None` in the source),
`State.act`, the `was_last_action_invalid` flag (set directly by the env
when the decoded action is `None`, modelled by `mark_invalid`),
`state.current_player.id` and `state.winner`. -/
structure BattleEngine (σ BAction : Type) where
  decode_action : Int → Option BAction
  act : σ → BAction → σ
  mark_invalid : σ → σ
  current_player : σ → PlayerOrder
  winner : σ → Option PlayerOrder
  was_last_action_invalid : σ → Bool

/-- Modelled from the spec: `_battle_is_finished` is defined in
`base_env.py`, which is not under `src/`; per spec §7(3) the battle
episode has ended exactly when a winner is decided. -/
def _battle_is_finished {σ BAction : Type} (E : BattleEngine σ BAction) (s : σ) : Bool :=
  (E.winner s).isSome

/-- Raw reward of `LOCMBattleEnv.step` (battle.py 101-114): 0 while no
winner is decided, `+1` if the first player won, `-1` otherwise. -/
def raw_reward (winner : Option PlayerOrder) : Int :=
  match winner with
  | none => 0
  | some PlayerOrder.FIRST => 1
  | some PlayerOrder.SECOND => -1

/-- What one `LOCMBattleEnv.step` call returns (observation aside):
successor state, reward, `done`, and the `invalid` flag of `info`. -/
structure BattleStepResult (σ : Type) where
  s : σ
  reward : Int
  done : Bool
  invalid : Bool
deriving Repr

/-- Body of `LOCMBattleEnv.step` after input validation (battle.py
89-118): apply the decoded action if there is one, else record the step
as invalid; `done` and the reward are read off the winner. -/
def battle_step_core {σ BAction : Type} (E : BattleEngine σ BAction) (s : σ)
    (action : Option BAction) : BattleStepResult σ :=
  let s1 := match action with
    | some a => E.act s a
    | none => E.mark_invalid s
  { s := s1
    reward := raw_reward (E.winner s1)
    done := (E.winner s1).isSome
    invalid := E.was_last_action_invalid s1 }

/-- `LOCMBattleEnv.step` (battle.py 69-118). -/
def LOCMBattleEnv_step {σ BAction : Type} (E : BattleEngine σ BAction) (s : σ)
    (input : ActionInput (Option BAction)) : Except StepError (BattleStepResult σ) :=
  step_guard (_battle_is_finished E s) E.decode_action (battle_step_core E s) input

/-! ## Opponent loop (battle.py 242-256 and 303-318)

`LOCMBattleSingleEnv.step` and `LOCMBattleSelfPlayEnv.step` share the
same scheduling loop; the opponent source (`self.battle_agent.act(state)`
or `self.adversary_policy(self.encode_state())`) is abstracted as a
policy `π` from the current state to the applied `Option BAction` (an
integer code goes through `decode_action` first, an `Action` object is
applied directly).  The Python `while` is modelled with explicit `fuel`;
every claim proved about it holds for every fuel value.  The second
component of the result counts the forced fallback `super().step(0)`
calls, for the theorems below. -/

def opponent_loop {σ BAction : Type} (E : BattleEngine σ BAction)
    (π : σ → Option BAction) (player : PlayerOrder) :
    Nat → BattleStepResult σ → BattleStepResult σ × Nat
  | 0, out => (out, 0)
  | fuel + 1, out =>
    if E.current_player out.s ≠ player ∧ E.winner out.s = none then
      let o1 := battle_step_core E out.s (π out.s)
      if o1.invalid ∧ ¬ o1.done then
        (battle_step_core E o1.s (E.decode_action 0), 1)
      else
        opponent_loop E π player fuel o1
    else (out, 0)

/-- `LOCMBattleSingleEnv.step` / `LOCMBattleSelfPlayEnv.step` (battle.py
232-256, 293-318): remember the acting player, run the base step, drive
the opponent loop, restore the learner's `invalid` flag and negate the
reward when the learner plays second. -/
def LOCMBattleSingleEnv_step {σ BAction : Type} (E : BattleEngine σ BAction)
    (π : σ → Option BAction) (play_first : Bool) (fuel : Nat) (s : σ)
    (input : ActionInput (Option BAction)) :
    Except StepError (BattleStepResult σ × Nat) :=
  let player := E.current_player s
  match LOCMBattleEnv_step E s input with
  | .error e => .error e
  | .ok out0 =>
    let (out, c) := opponent_loop E π player fuel out0
    .ok ({ out with
            invalid := out0.invalid,
            reward := if play_first then out.reward else -out.reward }, c)

/-! ## Self-play reset (battle.py 268-291) -/

/-- The opening loop of `LOCMBattleSelfPlayEnv.reset` (battle.py
280-289): while the engine still reports the first player as current,
the adversary policy moves, with the same single-fallback recovery as
the step loop.  `super().step` inside the loop is its post-validation
body (`battle_step_core`); the second component counts fallbacks. -/
def opening_loop {σ BAction : Type} (E : BattleEngine σ BAction)
    (π : σ → Option BAction) : Nat → σ → σ × Nat
  | 0, s => (s, 0)
  | fuel + 1, s =>
    if E.current_player s ≠ PlayerOrder.SECOND then
      let o1 := battle_step_core E s (π s)
      if o1.invalid ∧ ¬ o1.done then
        ((battle_step_core E o1.s (E.decode_action 0)).s, 1)
      else
        opening_loop E π fuel o1.s
    else (s, 0)

/-- `LOCMBattleSelfPlayEnv.reset` (battle.py 268-291): the base reset
replays the draft through the external engine and scripted draft agents,
abstracted as the fresh state `fresh`; then `self.play_first = not
self.play_first`, and if the (negated) flag says the learner plays
second, the adversary plays the opening moves.  Returns the new flag and
the engine state the next episode starts from. -/
def LOCMBattleSelfPlayEnv_reset {σ BAction : Type} (E : BattleEngine σ BAction)
    (π : σ → Option BAction) (fuel : Nat) (play_first : Bool) (fresh : σ) :
    Bool × σ :=
  let play_first1 := ! play_first
  if play_first1 then (play_first1, fresh)
  else (play_first1, (opening_loop E π fuel fresh).1)

/-! ## Draft engine contract, evaluator and `LOCMDraftEnv.step` (draft.py) -/

/-- The constructor parameters of `LOCMDraftEnv` that the adapter logic
reads (draft.py 13-52). -/
structure LOCMDraftParams where
  use_draft_history : Bool
  use_mana_curve : Bool
  sort_cards : Bool
  evaluation_battles : Nat
  k : Nat
  n : Nat
deriving Repr

/-- `self.cards_in_state = self.n + self.k if use_draft_history else
self.k` (draft.py 44). -/
def cards_in_state (P : LOCMDraftParams) : Nat :=
  if P.use_draft_history then P.n + P.k else P.k

/-- `self.card_features = 16` (draft.py 45). -/
def card_features : Nat := 16

/-- The declared draft observation length (draft.py 47-50):
`cards_in_state * card_features`, plus 13 when the mana curve is used. -/
def draft_state_shape (P : LOCMDraftParams) : Nat :=
  cards_in_state P * card_features + (if P.use_mana_curve then 13 else 0)

/-- A structured draft action; the adapter reads only its `origin`
field (draft.py 109-110). -/
structure DraftAction where
  origin : Int
deriving DecidableEq, Repr

/-- The engine operations `LOCMDraftEnv` consumes: the current player's
hand and id, `State.act`, the phase query behind `_draft_is_finished`
(base_env.py, engine contract "query current phase"), and `State.clone`. -/
structure DraftEngine (σ : Type) where
  hand : σ → List Card
  current_player : σ → Fin 2
  act : σ → DraftAction → σ
  draft_is_finished : σ → Bool
  clone : σ → σ

/-- The pair of scripted battle agents used by the evaluator, with their
internal (e.g. RNG) state of type `α`: `reset` is `agent.reset()` applied
to both, and `play_match` abstracts the `while state.winner is None`
loop of `do_match` (draft.py 159-167), which drives the external battle
engine and agents to completion and yields `state.winner`. -/
structure BattleAgents (σ α : Type) where
  reset : α → α
  play_match : α → σ → PlayerOrder × α

/-- `LOCMDraftEnv.do_match` (draft.py 154-167): reset the battle agents,
then play the given state to completion. -/
def do_match {σ α : Type} (A : BattleAgents σ α) (ag : α) (s : σ) :
    PlayerOrder × α :=
  A.play_match (A.reset ag) s

/-- `1 if winner == PlayerOrder.FIRST else -1` (draft.py 133, 143). -/
def result_of_winner (w : PlayerOrder) : Int :=
  if w = PlayerOrder.FIRST then 1 else -1

/-- `np.mean` on a list of integer outcomes, as a rational. -/
def np_mean (l : List Int) : ℚ :=
  (l.sum : ℚ) / l.length

/-- The end-of-draft evaluation of `LOCMDraftEnv.step` (draft.py
127-146): with exactly one evaluation battle the live state is played in
place; otherwise each trial plays `self.state.clone()` to completion
with `do_match`, appending one `±1` outcome to `results` and one winner
to `info["winner"]`.  Returns the updated `results`, the winner list and
the battle agents' final state.  The per-trial loop (draft.py 138-144)
is `evaluation_trials`. -/
def evaluation_trials {σ α : Type} (A : BattleAgents σ α) (E : DraftEngine σ)
    (s : σ) (evaluation_battles : Nat)
    (acc0 : List Int × List PlayerOrder × α) : List Int × List PlayerOrder × α :=
  (List.range evaluation_battles).foldl
    (fun acc _ =>
      let r := do_match A acc.2.2 (E.clone s)
      (acc.1 ++ [result_of_winner r.1], acc.2.1 ++ [r.1], r.2))
    acc0

/-- The branch on `evaluation_battles` of draft.py 127-146: one battle
plays the live state in place (no clone); several battles run
`evaluation_trials` on per-trial clones. -/
def draft_evaluation {σ α : Type} (A : BattleAgents σ α) (E : DraftEngine σ)
    (evaluation_battles : Nat) (prev_results : List Int) (s : σ) (ag : α) :
    List Int × List PlayerOrder × α :=
  if evaluation_battles = 1 then
    let r := do_match A ag s
    ([result_of_winner r.1], [r.1], r.2)
  else
    evaluation_trials A E s evaluation_battles (prev_results, [], ag)

/-- The mutable environment fields of `LOCMDraftEnv` that `step` touches:
the engine state, the per-player choice history, the per-turn draft
ordering, the outcome list, the episode reward accumulator and the
battle agents' state. -/
structure DraftEnvState (σ α : Type) where
  s : σ
  choices : List Card × List Card
  draft_ordering : List Nat
  results : List Int
  rewards : List ℚ
  agents : α

/-- `self.rewards[-1] += reward` (draft.py 147). -/
def add_to_last (l : List ℚ) (x : ℚ) : List ℚ :=
  l.set (l.length - 1) (l.getD (l.length - 1) 0 + x)

/-- Stands for the `IndexError` value of a Python out-of-range list
index: the engine guarantees the accesses below stay in range, and the
theorems hypothesise as much. -/
def dummy_card : Card := ⟨0, 0⟩

/-- `chosen_card = state.current_player.hand[chosen_index]` (draft.py
115). -/
def draft_chosen_card {σ : Type} (E : DraftEngine σ) (k : Nat)
    (ordering : List Nat) (s : σ) (action : DraftAction) : Card :=
  (E.hand s).getD (chosen_index k ordering action.origin) dummy_card

/-- `self.choices[state.current_player.id].append(chosen_card)`
(draft.py 116). -/
def updated_choices {σ : Type} (E : DraftEngine σ) (k : Nat)
    (ordering : List Nat) (choices : List Card × List Card) (s : σ)
    (action : DraftAction) : List Card × List Card :=
  if E.current_player s = 0 then
    (choices.1 ++ [draft_chosen_card E k ordering s action], choices.2)
  else
    (choices.1, choices.2 ++ [draft_chosen_card E k ordering s action])

/-- Body of `LOCMDraftEnv.step` after input validation (draft.py
105-152): remap the origin through the draft ordering, record the chosen
card in the acting player's choice history, apply the action, and — when
the draft just finished — run the evaluator, take `np.mean` of the
outcomes as reward, and report the winner list.  (The Python locals
`chosen_index`/`chosen_card`/`results` appear here as the named helper
functions above and repeated `draft_evaluation` applications.) -/
def draft_step_core {σ α : Type} (P : LOCMDraftParams) (E : DraftEngine σ)
    (A : BattleAgents σ α) (env : DraftEnvState σ α) (action : DraftAction) :
    DraftEnvState σ α × ℚ × Bool × List PlayerOrder :=
  if E.draft_is_finished (E.act env.s action) then
    ({ env with
        s := E.act env.s action
        choices := updated_choices E P.k env.draft_ordering env.choices env.s action
        results := (draft_evaluation A E P.evaluation_battles env.results
          (E.act env.s action) env.agents).1
        agents := (draft_evaluation A E P.evaluation_battles env.results
          (E.act env.s action) env.agents).2.2
        rewards := add_to_last env.rewards (np_mean
          (draft_evaluation A E P.evaluation_battles env.results
            (E.act env.s action) env.agents).1) },
      np_mean (draft_evaluation A E P.evaluation_battles env.results
        (E.act env.s action) env.agents).1,
      true,
      (draft_evaluation A E P.evaluation_battles env.results
        (E.act env.s action) env.agents).2.1)
  else
    ({ env with
        s := E.act env.s action
        choices := updated_choices E P.k env.draft_ordering env.choices env.s action },
      0, false, [])

/-- `LOCMDraftEnv.step` (draft.py 85-152); `decode_action` is the base
class's draft action decoder (outside `src/`). -/
def LOCMDraftEnv_step {σ α : Type} (P : LOCMDraftParams) (E : DraftEngine σ)
    (A : BattleAgents σ α) (decode_action : Int → DraftAction)
    (env : DraftEnvState σ α) (input : ActionInput DraftAction) :
    Except StepError (DraftEnvState σ α × ℚ × Bool × List PlayerOrder) :=
  step_guard (E.draft_is_finished env.s) decode_action (draft_step_core P E A env) input

/-- `LOCMDraftSingleEnv.step` (draft.py 248-259): when the learner plays
first its action is applied and then the scripted draft agent's; when it
plays second the order swaps and the returned reward is negated.  The
scripted agent (`self.draft_agent.act(self.state)`) is abstracted as a
policy from the engine state to an `Action` object. -/
def LOCMDraftSingleEnv_step {σ α : Type} (P : LOCMDraftParams) (E : DraftEngine σ)
    (A : BattleAgents σ α) (decode_action : Int → DraftAction)
    (draft_agent : σ → DraftAction) (play_first : Bool)
    (env : DraftEnvState σ α) (input : ActionInput DraftAction) :
    Except StepError (DraftEnvState σ α × ℚ × Bool × List PlayerOrder) :=
  if play_first then
    match LOCMDraftEnv_step P E A decode_action env input with
    | .error e => .error e
    | .ok (env1, _, _, _) =>
      LOCMDraftEnv_step P E A decode_action env1 (.action (draft_agent env1.s))
  else
    match LOCMDraftEnv_step P E A decode_action env (.action (draft_agent env.s)) with
    | .error e => .error e
    | .ok (env1, _, _, _) =>
      match LOCMDraftEnv_step P E A decode_action env1 input with
      | .error e => .error e
      | .ok (env2, reward, done, winners) => .ok (env2, -reward, done, winners)

/-! ## Concrete fixtures used by witnesses and counterexamples -/

/-- A minimal draft engine over `σ := Nat` counting applied actions; the
draft finishes after the second pick. -/
def testDraftEngine : DraftEngine Nat where
  hand := fun _ => [⟨1, 0⟩, ⟨2, 1⟩, ⟨3, 2⟩]
  current_player := fun s => if s % 2 = 0 then 0 else 1
  act := fun s _ => s + 1
  draft_is_finished := fun s => 2 ≤ s
  clone := id

/-- Battle agents over agent state `α := Nat`: trial outcomes FIRST,
FIRST, SECOND, ... as the internal state advances. -/
def testBattleAgents : BattleAgents Nat Nat where
  reset := id
  play_match := fun ag _ =>
    (if ag < 2 then PlayerOrder.FIRST else PlayerOrder.SECOND, ag + 1)

/-- Draft parameters with three evaluation battles and all observation
options off. -/
def testDraftParams : LOCMDraftParams :=
  { use_draft_history := false, use_mana_curve := false, sort_cards := false
    evaluation_battles := 3, k := 3, n := 30 }

/-- The draft action decoder of the base class, `origin := code`. -/
def testDecode (code : Int) : DraftAction := ⟨code⟩

/-- A fresh draft environment bookkeeping record over the test engine. -/
def testDraftEnv (s : Nat) : DraftEnvState Nat Nat :=
  { s := s, choices := ([], []), draft_ordering := [0, 1, 2], results := []
    rewards := [0], agents := 0 }

/-- A scripted draft agent always picking origin 0. -/
def testDraftAgent : Nat → DraftAction := fun _ => ⟨0⟩

/-- A minimal battle engine over `σ := Nat`: each action advances the
state, the winner is decided once the state reaches 5. -/
def testBattleEngine : BattleEngine Nat Nat where
  decode_action := fun n => some n.toNat
  act := fun s _ => s + 1
  mark_invalid := id
  current_player := fun s => if s % 2 = 0 then PlayerOrder.FIRST else PlayerOrder.SECOND
  winner := fun s => if 5 ≤ s then some PlayerOrder.FIRST else none
  was_last_action_invalid := fun _ => false

/-! ## C7 / C8: error handling of `step` -/

/-- C7: whenever the relevant phase is finished (a winner is decided for
battle, the draft complete for draft), any call to `step` — with any
input whatsoever, malformed ones included — returns the fatal
`GameIsEndedError` immediately; no action is decoded, no engine call is
made and no successor state is produced. -/
theorem step_after_end_raises {σ α τ BAction : Type} (P : LOCMDraftParams)
    (E : DraftEngine σ) (A : BattleAgents σ α) (decode : Int → DraftAction)
    (env : DraftEnvState σ α) (input : ActionInput DraftAction)
    (EB : BattleEngine τ BAction) (sb : τ) (inputb : ActionInput (Option BAction))
    (hd : E.draft_is_finished env.s = true)
    (hb : _battle_is_finished EB sb = true) :
    LOCMDraftEnv_step P E A decode env input = .error .GameIsEndedError ∧
    LOCMBattleEnv_step EB sb inputb = .error .GameIsEndedError := by
  constructor
  · simp [LOCMDraftEnv_step, step_guard, hd]
  · simp [LOCMBattleEnv_step, step_guard, hb]

/-- Witness for C7: a finished draft state and a decided battle state of
the concrete test engines reject a well-formed integer action. -/
theorem step_after_end_raises_witness :
    testDraftEngine.draft_is_finished (testDraftEnv 2).s = true ∧
    _battle_is_finished testBattleEngine 5 = true ∧
    (LOCMDraftEnv_step testDraftParams testDraftEngine testBattleAgents testDecode
        (testDraftEnv 2) (.pyObject (.ok 0)) = .error .GameIsEndedError ∧
      LOCMBattleEnv_step testBattleEngine 5 (.pyObject (.ok 0))
        = .error .GameIsEndedError) :=
  ⟨by decide, by decide,
    step_after_end_raises testDraftParams testDraftEngine testBattleAgents testDecode
      (testDraftEnv 2) (.pyObject (.ok 0)) testBattleEngine 5 (.pyObject (.ok 0))
      (by decide) (by decide)⟩

/-- Counterexample to C8: the input `None` (or any list, dict, ...) is
neither an `Action` nor coercible to an integer, yet `int(None)` raises
`TypeError`, which the source's `except ValueError` does not catch: the
step raises an uncaught `TypeError`, not `MalformedActionError`. -/
theorem malformed_action_counterexample :
    LOCMDraftEnv_step testDraftParams testDraftEngine testBattleAgents testDecode
        (testDraftEnv 0) (.pyObject .typeError) = .error .uncaughtTypeError ∧
    (.error .uncaughtTypeError : Except StepError
        (DraftEnvState Nat Nat × ℚ × Bool × List PlayerOrder))
      ≠ .error .MalformedActionError := by
  constructor
  · rfl
  · intro h
    cases h

/-- C8 (amended): for either environment, with the phase unfinished, a
non-`Action` input whose integer coercion fails with a `ValueError`
(e.g. a non-numeric string) raises `MalformedActionError` and no
successor state is produced; an input whose coercion fails with a
`TypeError` (e.g. `None` or a list) instead propagates the uncaught
`TypeError`. -/
theorem malformed_action_rejection {σ α τ BAction : Type} (P : LOCMDraftParams)
    (E : DraftEngine σ) (A : BattleAgents σ α) (decode : Int → DraftAction)
    (env : DraftEnvState σ α)
    (EB : BattleEngine τ BAction) (sb : τ)
    (hd : E.draft_is_finished env.s = false)
    (hb : _battle_is_finished EB sb = false) :
    LOCMDraftEnv_step P E A decode env (.pyObject .valueError)
        = .error .MalformedActionError ∧
    LOCMDraftEnv_step P E A decode env (.pyObject .typeError)
        = .error .uncaughtTypeError ∧
    LOCMBattleEnv_step EB sb (.pyObject .valueError)
        = .error .MalformedActionError ∧
    LOCMBattleEnv_step EB sb (.pyObject .typeError)
        = .error .uncaughtTypeError := by
  refine ⟨?_, ?_, ?_, ?_⟩ <;>
    simp [LOCMDraftEnv_step, LOCMBattleEnv_step, step_guard, hd, hb]

/-- Witness for C8 (amended) on the concrete test engines. -/
theorem malformed_action_rejection_witness :
    testDraftEngine.draft_is_finished (testDraftEnv 0).s = false ∧
    _battle_is_finished testBattleEngine 0 = false ∧
    (LOCMDraftEnv_step testDraftParams testDraftEngine testBattleAgents testDecode
          (testDraftEnv 0) (.pyObject .valueError) = .error .MalformedActionError ∧
      LOCMDraftEnv_step testDraftParams testDraftEngine testBattleAgents testDecode
          (testDraftEnv 0) (.pyObject .typeError) = .error .uncaughtTypeError ∧
      LOCMBattleEnv_step testBattleEngine 0 (.pyObject .valueError)
          = .error .MalformedActionError ∧
      LOCMBattleEnv_step testBattleEngine 0 (.pyObject .typeError)
          = .error .uncaughtTypeError) :=
  ⟨by decide, by decide,
    malformed_action_rejection testDraftParams testDraftEngine testBattleAgents
      testDecode (testDraftEnv 0) testBattleEngine 0 (by decide) (by decide)⟩

/-! ## C3: multi-battle draft evaluation -/

theorem draft_step_core_finished {σ α : Type} (P : LOCMDraftParams)
    (E : DraftEngine σ) (A : BattleAgents σ α) (env : DraftEnvState σ α)
    (a : DraftAction) (hfin : E.draft_is_finished (E.act env.s a) = true) :
    draft_step_core P E A env a
      = ({ env with
            s := E.act env.s a
            choices := updated_choices E P.k env.draft_ordering env.choices env.s a
            results := (draft_evaluation A E P.evaluation_battles env.results
              (E.act env.s a) env.agents).1
            agents := (draft_evaluation A E P.evaluation_battles env.results
              (E.act env.s a) env.agents).2.2
            rewards := add_to_last env.rewards (np_mean
              (draft_evaluation A E P.evaluation_battles env.results
                (E.act env.s a) env.agents).1) },
          np_mean (draft_evaluation A E P.evaluation_battles env.results
            (E.act env.s a) env.agents).1,
          true,
          (draft_evaluation A E P.evaluation_battles env.results
            (E.act env.s a) env.agents).2.1) := by
  unfold draft_step_core
  rw [if_pos hfin]

theorem draft_step_core_unfinished {σ α : Type} (P : LOCMDraftParams)
    (E : DraftEngine σ) (A : BattleAgents σ α) (env : DraftEnvState σ α)
    (a : DraftAction) (hfin : E.draft_is_finished (E.act env.s a) = false) :
    draft_step_core P E A env a
      = ({ env with
            s := E.act env.s a
            choices := updated_choices E P.k env.draft_ordering env.choices env.s a },
          0, false, []) := by
  unfold draft_step_core
  rw [if_neg (by simp [hfin])]

theorem evaluation_trials_spec {σ α : Type} (A : BattleAgents σ α)
    (E : DraftEngine σ) (s : σ) :
    ∀ (N : Nat) (acc0 : List Int × List PlayerOrder × α),
      ∃ ws : List PlayerOrder,
        (evaluation_trials A E s N acc0).1 = acc0.1 ++ ws.map result_of_winner ∧
        (evaluation_trials A E s N acc0).2.1 = acc0.2.1 ++ ws ∧
        ws.length = N := by
  intro N
  induction N with
  | zero =>
    intro acc0
    exact ⟨[], by simp [evaluation_trials], by simp [evaluation_trials], rfl⟩
  | succ m ih =>
    intro acc0
    obtain ⟨ws, h1, h2, h3⟩ := ih acc0
    have hstep : evaluation_trials A E s (m + 1) acc0
        = (let acc := evaluation_trials A E s m acc0
           let r := do_match A acc.2.2 (E.clone s)
           (acc.1 ++ [result_of_winner r.1], acc.2.1 ++ [r.1], r.2)) := by
      unfold evaluation_trials
      rw [List.range_succ, List.foldl_append]
      rfl
    refine ⟨ws ++ [(do_match A (evaluation_trials A E s m acc0).2.2 (E.clone s)).1],
      ?_, ?_, by simp [h3]⟩
    · rw [hstep]
      simp only [h1, List.map_append, List.map_cons, List.map_nil, List.append_assoc]
    · rw [hstep]
      simp only [h2, List.append_assoc]

theorem result_of_winner_mem (w : PlayerOrder) :
    result_of_winner w = 1 ∨ result_of_winner w = -1 := by
  cases w <;> simp [result_of_winner]

/-- C3: when the draft completes with `evaluation_battles = N > 1`, the
evaluator runs one trial per `i < N` on `self.state.clone()`, playing it
to completion with `do_match` (which resets the battle agents first),
collects one `±1` outcome per trial, returns `np.mean` of the `N`
outcomes as reward, and reports a winner list of length `N`. -/
theorem draft_step_multi_battle_evaluation {σ α : Type} (P : LOCMDraftParams)
    (E : DraftEngine σ) (A : BattleAgents σ α) (decode : Int → DraftAction)
    (env : DraftEnvState σ α) (a : DraftAction)
    (hguard : E.draft_is_finished env.s = false)
    (hfin : E.draft_is_finished (E.act env.s a) = true)
    (hres : env.results = [])
    (hN : 1 < P.evaluation_battles) :
    LOCMDraftEnv_step P E A decode env (.action a)
        = .ok (draft_step_core P E A env a) ∧
    (draft_step_core P E A env a).2.2.1 = true ∧
    (draft_step_core P E A env a).2.2.2.length = P.evaluation_battles ∧
    (draft_step_core P E A env a).1.results
        = (draft_step_core P E A env a).2.2.2.map result_of_winner ∧
    (draft_step_core P E A env a).1.results.length = P.evaluation_battles ∧
    (∀ x ∈ (draft_step_core P E A env a).1.results, x = 1 ∨ x = -1) ∧
    (draft_step_core P E A env a).2.1
        = (((draft_step_core P E A env a).1.results).sum : ℚ)
            / P.evaluation_battles := by
  have hshape : LOCMDraftEnv_step P E A decode env (.action a)
      = .ok (draft_step_core P E A env a) := by
    simp [LOCMDraftEnv_step, step_guard, hguard]
  obtain ⟨ws, hw1, hw2, hw3⟩ :=
    evaluation_trials_spec A E (E.act env.s a) P.evaluation_battles
      (env.results, [], env.agents)
  have heval : draft_evaluation A E P.evaluation_battles env.results
      (E.act env.s a) env.agents
      = evaluation_trials A E (E.act env.s a) P.evaluation_battles
          (env.results, [], env.agents) := by
    unfold draft_evaluation
    rw [if_neg (by omega)]
  have hcore := draft_step_core_finished P E A env a hfin
  have hdone : (draft_step_core P E A env a).2.2.1 = true := by rw [hcore]
  have hws : (draft_step_core P E A env a).2.2.2
      = (draft_evaluation A E P.evaluation_battles env.results
          (E.act env.s a) env.agents).2.1 := by rw [hcore]
  have hresults : (draft_step_core P E A env a).1.results
      = (draft_evaluation A E P.evaluation_battles env.results
          (E.act env.s a) env.agents).1 := by rw [hcore]
  have hreward : (draft_step_core P E A env a).2.1
      = np_mean (draft_evaluation A E P.evaluation_battles env.results
          (E.act env.s a) env.agents).1 := by rw [hcore]
  have hws1 : (draft_step_core P E A env a).2.2.2 = ws := by
    rw [hws, heval, hw2]
    simp
  have hres1 : (draft_step_core P E A env a).1.results
      = ws.map result_of_winner := by
    rw [hresults, heval, hw1, hres]
    simp
  have hreslen : (draft_step_core P E A env a).1.results.length
      = P.evaluation_battles := by
    rw [hres1, List.length_map, hw3]
  refine ⟨hshape, hdone, by rw [hws1, hw3], by rw [hres1, hws1], hreslen, ?_, ?_⟩
  · intro x hx
    rw [hres1] at hx
    rcases List.mem_map.1 hx with ⟨w, _, rfl⟩
    exact result_of_winner_mem w
  · rw [hreward, hresults, np_mean]
    rw [← hresults, hreslen, hresults]

/-- Witness for C3: three evaluation battles on the test fixtures give
the outcomes `[1, 1, -1]`, winners `[FIRST, FIRST, SECOND]` and reward
`1/3`, matching the claim's example. -/
theorem draft_step_multi_battle_evaluation_witness :
    testDraftEngine.draft_is_finished (testDraftEnv 1).s = false ∧
    testDraftEngine.draft_is_finished (testDraftEngine.act (testDraftEnv 1).s ⟨0⟩)
        = true ∧
    (testDraftEnv 1).results = [] ∧
    1 < testDraftParams.evaluation_battles ∧
    (LOCMDraftEnv_step testDraftParams testDraftEngine testBattleAgents testDecode
          (testDraftEnv 1) (.action ⟨0⟩)
        = .ok (draft_step_core testDraftParams testDraftEngine testBattleAgents
            (testDraftEnv 1) ⟨0⟩) ∧
      (draft_step_core testDraftParams testDraftEngine testBattleAgents
          (testDraftEnv 1) ⟨0⟩).2.2.1 = true ∧
      (draft_step_core testDraftParams testDraftEngine testBattleAgents
          (testDraftEnv 1) ⟨0⟩).2.2.2.length = testDraftParams.evaluation_battles ∧
      (draft_step_core testDraftParams testDraftEngine testBattleAgents
          (testDraftEnv 1) ⟨0⟩).1.results
        = (draft_step_core testDraftParams testDraftEngine testBattleAgents
            (testDraftEnv 1) ⟨0⟩).2.2.2.map result_of_winner ∧
      (draft_step_core testDraftParams testDraftEngine testBattleAgents
          (testDraftEnv 1) ⟨0⟩).1.results.length
        = testDraftParams.evaluation_battles ∧
      (∀ x ∈ (draft_step_core testDraftParams testDraftEngine testBattleAgents
          (testDraftEnv 1) ⟨0⟩).1.results, x = 1 ∨ x = -1) ∧
      (draft_step_core testDraftParams testDraftEngine testBattleAgents
          (testDraftEnv 1) ⟨0⟩).2.1
        = (((draft_step_core testDraftParams testDraftEngine testBattleAgents
            (testDraftEnv 1) ⟨0⟩).1.results).sum : ℚ)
            / testDraftParams.evaluation_battles) ∧
    (draft_step_core testDraftParams testDraftEngine testBattleAgents
        (testDraftEnv 1) ⟨0⟩).1.results = [1, 1, -1] ∧
    (draft_step_core testDraftParams testDraftEngine testBattleAgents
        (testDraftEnv 1) ⟨0⟩).2.2.2
      = [PlayerOrder.FIRST, PlayerOrder.FIRST, PlayerOrder.SECOND] ∧
    (draft_step_core testDraftParams testDraftEngine testBattleAgents
        (testDraftEnv 1) ⟨0⟩).2.1 = 1 / 3 := by
  have h := draft_step_multi_battle_evaluation testDraftParams testDraftEngine
    testBattleAgents testDecode (testDraftEnv 1) ⟨0⟩
    (by decide) (by decide) rfl (by decide)
  have hres : (draft_step_core testDraftParams testDraftEngine testBattleAgents
      (testDraftEnv 1) ⟨0⟩).1.results = [1, 1, -1] := by decide
  refine ⟨by decide, by decide, rfl, by decide, h, hres, by decide, ?_⟩
  rw [h.2.2.2.2.2.2, hres]
  norm_num [testDraftParams]

/-! ## C4 / C6: turn scheduler reward and fallback recovery -/

/-- A draft engine whose draft lasts 100 picks, for non-terminal steps. -/
def testDraftEngineLong : DraftEngine Nat where
  hand := fun _ => [⟨1, 0⟩, ⟨2, 1⟩, ⟨3, 2⟩]
  current_player := fun s => if s % 2 = 0 then 0 else 1
  act := fun s _ => s + 1
  draft_is_finished := fun s => 100 ≤ s
  clone := id

/-- A battle engine over `σ := Nat × Bool` (turn counter, invalid flag):
action code 0 is always legal and advances the turn; any other action is
illegal and only sets the engine's invalid flag; the first player wins
once the counter reaches 2. -/
def testInvalidBattleEngine : BattleEngine (Nat × Bool) Int where
  decode_action := fun n => some n
  act := fun s a => if a = 0 then (s.1 + 1, false) else (s.1, true)
  mark_invalid := fun s => (s.1, true)
  current_player := fun s =>
    if s.1 % 2 = 0 then PlayerOrder.FIRST else PlayerOrder.SECOND
  winner := fun s => if 2 ≤ s.1 then some PlayerOrder.FIRST else none
  was_last_action_invalid := fun s => s.2

theorem battle_step_core_reward_raw {σ BAction : Type}
    (E : BattleEngine σ BAction) (s : σ) (a : Option BAction) :
    (battle_step_core E s a).reward
        = raw_reward (E.winner (battle_step_core E s a).s) ∧
    (battle_step_core E s a).done
        = (E.winner (battle_step_core E s a).s).isSome :=
  ⟨rfl, rfl⟩

theorem opponent_loop_invariant {σ BAction : Type} (E : BattleEngine σ BAction)
    (π : σ → Option BAction) (player : PlayerOrder) :
    ∀ (fuel : Nat) (out : BattleStepResult σ),
      out.reward = raw_reward (E.winner out.s) →
      out.done = (E.winner out.s).isSome →
      (opponent_loop E π player fuel out).1.reward
          = raw_reward (E.winner (opponent_loop E π player fuel out).1.s) ∧
      (opponent_loop E π player fuel out).1.done
          = (E.winner (opponent_loop E π player fuel out).1.s).isSome := by
  intro fuel
  induction fuel with
  | zero =>
    intro out h1 h2
    exact ⟨h1, h2⟩
  | succ m ih =>
    intro out h1 h2
    simp only [opponent_loop]
    split
    · split
      · exact battle_step_core_reward_raw E _ _
      · exact ih _ (battle_step_core_reward_raw E _ _).1
          (battle_step_core_reward_raw E _ _).2
    · exact ⟨h1, h2⟩

theorem opponent_loop_fallback {σ BAction : Type} (E : BattleEngine σ BAction)
    (π : σ → Option BAction) (player : PlayerOrder) :
    ∀ (fuel : Nat) (out : BattleStepResult σ),
      (opponent_loop E π player fuel out).2 ≤ 1 ∧
      ((opponent_loop E π player fuel out).2 = 1 →
        ∃ s1 : σ,
          E.current_player s1 ≠ player ∧
          E.winner s1 = none ∧
          (battle_step_core E s1 (π s1)).invalid = true ∧
          (battle_step_core E s1 (π s1)).done = false ∧
          (opponent_loop E π player fuel out).1
            = battle_step_core E (battle_step_core E s1 (π s1)).s
                (E.decode_action 0)) := by
  intro fuel
  induction fuel with
  | zero =>
    intro out
    exact ⟨Nat.zero_le 1, by intro h; cases h⟩
  | succ m ih =>
    intro out
    simp only [opponent_loop]
    split
    next hguard =>
      split
      next hinv =>
        refine ⟨le_refl 1, fun _ => ⟨out.s, hguard.1, hguard.2, ?_, ?_, rfl⟩⟩
        · simpa using hinv.1
        · simpa using hinv.2
      next hinv =>
        exact ih _
    next hguard =>
      exact ⟨Nat.zero_le 1, by intro h; cases h⟩

/-- `.ok` results of `LOCMBattleEnv.step` always come from its
post-validation body applied to the current state. -/
theorem battle_env_step_ok_shape {σ BAction : Type} (E : BattleEngine σ BAction)
    (s : σ) (input : ActionInput (Option BAction)) (out0 : BattleStepResult σ)
    (h : LOCMBattleEnv_step E s input = .ok out0) :
    ∃ a, out0 = battle_step_core E s a := by
  unfold LOCMBattleEnv_step step_guard at h
  split at h
  · cases h
  · split at h
    next a =>
      injection h with h
      exact ⟨a, h.symm⟩
    next n =>
      injection h with h
      exact ⟨E.decode_action n, h.symm⟩
    · cases h
    · cases h

/-- C6: in every single `step` call of the single-opponent or self-play
battle environments, the scheduler applies at most one forced fallback
action (the fixed code 0); when it does, the opponent's chosen move was
reported invalid by the engine with the episode not over, the loop exits
immediately after the fallback, and `done` is decided exactly by the
winner query after that fallback move. -/
theorem single_step_at_most_one_fallback {σ BAction : Type}
    (E : BattleEngine σ BAction) (π : σ → Option BAction) (pf : Bool)
    (fuel : Nat) (s : σ) (input : ActionInput (Option BAction))
    (out : BattleStepResult σ) (c : Nat)
    (h : LOCMBattleSingleEnv_step E π pf fuel s input = .ok (out, c)) :
    c ≤ 1 ∧
    out.done = (E.winner out.s).isSome ∧
    (c = 1 →
      ∃ s1 : σ,
        E.current_player s1 ≠ E.current_player s ∧
        E.winner s1 = none ∧
        (battle_step_core E s1 (π s1)).invalid = true ∧
        (battle_step_core E s1 (π s1)).done = false ∧
        out.s = (battle_step_core E (battle_step_core E s1 (π s1)).s
            (E.decode_action 0)).s ∧
        out.done = (battle_step_core E (battle_step_core E s1 (π s1)).s
            (E.decode_action 0)).done) := by
  unfold LOCMBattleSingleEnv_step at h
  cases hstep : LOCMBattleEnv_step E s input with
  | error e =>
    rw [hstep] at h
    cases h
  | ok out0 =>
    rw [hstep] at h
    injection h with h
    obtain ⟨a, ha⟩ := battle_env_step_ok_shape E s input out0 hstep
    have hcount := opponent_loop_fallback E π (E.current_player s) fuel out0
    have hinvar := opponent_loop_invariant E π (E.current_player s) fuel out0
      (by rw [ha]; exact (battle_step_core_reward_raw E s a).1)
      (by rw [ha]; exact (battle_step_core_reward_raw E s a).2)
    have hout : out = { (opponent_loop E π (E.current_player s) fuel out0).1 with
        invalid := out0.invalid,
        reward := if pf then (opponent_loop E π (E.current_player s) fuel out0).1.reward
          else -(opponent_loop E π (E.current_player s) fuel out0).1.reward } := by
      have := congrArg Prod.fst h
      exact this.symm
    have hc : c = (opponent_loop E π (E.current_player s) fuel out0).2 := by
      have := congrArg Prod.snd h
      exact this.symm
    refine ⟨hc ▸ hcount.1, ?_, ?_⟩
    · rw [hout]
      exact hinvar.2
    · intro h1
      obtain ⟨s1, hs1, hw1, hi1, hd1, hres⟩ := hcount.2 (hc ▸ h1)
      exact ⟨s1, hs1, hw1, hi1, hd1, by rw [hout, hres], by rw [hout, hres]⟩

/-- Witness for C6: an adversary that always plays the illegal code 7
triggers exactly one forced fallback, which here also ends the game. -/
theorem single_step_at_most_one_fallback_witness :
    LOCMBattleSingleEnv_step testInvalidBattleEngine (fun _ => some 7) true 5
        (0, false) (.pyObject (.ok 0))
      = .ok ({ s := (2, false), reward := 1, done := true, invalid := false }, 1) ∧
    (1 ≤ 1 ∧
      true = (testInvalidBattleEngine.winner (2, false)).isSome ∧
      ((1 : Nat) = 1 →
        ∃ s1 : Nat × Bool,
          testInvalidBattleEngine.current_player s1
              ≠ testInvalidBattleEngine.current_player (0, false) ∧
          testInvalidBattleEngine.winner s1 = none ∧
          (battle_step_core testInvalidBattleEngine s1 (some 7)).invalid = true ∧
          (battle_step_core testInvalidBattleEngine s1 (some 7)).done = false ∧
          (2, false) = (battle_step_core testInvalidBattleEngine
              (battle_step_core testInvalidBattleEngine s1 (some 7)).s
              (testInvalidBattleEngine.decode_action 0)).s ∧
          true = (battle_step_core testInvalidBattleEngine
              (battle_step_core testInvalidBattleEngine s1 (some 7)).s
              (testInvalidBattleEngine.decode_action 0)).done)) := by
  constructor
  · rfl
  · exact single_step_at_most_one_fallback testInvalidBattleEngine
      (fun _ => some 7) true 5 (0, false) (.pyObject (.ok 0))
      { s := (2, false), reward := 1, done := true, invalid := false } 1 rfl

/-- `.ok` results of `LOCMDraftEnv.step` have reward 0 while the draft
continues and reward `np.mean(results)` at the completing step. -/
theorem draft_step_reward_char {σ α : Type} (P : LOCMDraftParams)
    (E : DraftEngine σ) (A : BattleAgents σ α) (decode : Int → DraftAction)
    (env : DraftEnvState σ α) (input : ActionInput DraftAction)
    (env1 : DraftEnvState σ α) (r1 : ℚ) (d1 : Bool) (ws1 : List PlayerOrder)
    (h : LOCMDraftEnv_step P E A decode env input = .ok (env1, r1, d1, ws1)) :
    (d1 = false → r1 = 0) ∧ (d1 = true → r1 = np_mean env1.results) := by
  have hcore : ∀ a : DraftAction,
      draft_step_core P E A env a = (env1, r1, d1, ws1) →
      (d1 = false → r1 = 0) ∧ (d1 = true → r1 = np_mean env1.results) := by
    intro a ha
    cases hfin : E.draft_is_finished (E.act env.s a) with
    | true =>
      rw [draft_step_core_finished P E A env a hfin] at ha
      injection ha with ha1 ha2
      injection ha2 with ha2 ha3
      injection ha3 with ha3 ha4
      subst ha1 ha2 ha3
      exact ⟨(by intro hF; cases hF), fun _ => rfl⟩
    | false =>
      rw [draft_step_core_unfinished P E A env a hfin] at ha
      injection ha with ha1 ha2
      injection ha2 with ha2 ha3
      injection ha3 with ha3 ha4
      subst ha2 ha3
      exact ⟨fun _ => rfl, by intro hT; cases hT⟩
  unfold LOCMDraftEnv_step step_guard at h
  split at h
  · cases h
  · split at h
    next a =>
      injection h with h
      exact hcore a h
    next n =>
      injection h with h
      exact hcore (decode n) h
    · cases h
    · cases h

/-- C4 (amended): for the battle single-opponent and self-play
environments, the reward is 0 while no winner is decided and `+1`/`-1`
by the first player's outcome once one is, negated exactly when the
learner plays second; for the draft single-opponent environment the raw
terminal reward is `np.mean` of the evaluation outcomes (`±1` only when
a single evaluation battle is configured), likewise negated exactly when
the learner plays second. -/
theorem learner_perspective_reward {σ BAction σ1 α : Type}
    (EB : BattleEngine σ BAction) (π : σ → Option BAction) (pf : Bool)
    (fuel : Nat) (s : σ) (input : ActionInput (Option BAction))
    (out : BattleStepResult σ) (c : Nat)
    (P : LOCMDraftParams) (E : DraftEngine σ1) (A : BattleAgents σ1 α)
    (decode : Int → DraftAction) (agent : σ1 → DraftAction) (pfd : Bool)
    (env : DraftEnvState σ1 α) (inputd : ActionInput DraftAction)
    (env2 : DraftEnvState σ1 α) (r : ℚ) (done : Bool) (ws : List PlayerOrder)
    (hb : LOCMBattleSingleEnv_step EB π pf fuel s input = .ok (out, c))
    (hd : LOCMDraftSingleEnv_step P E A decode agent pfd env inputd
        = .ok (env2, r, done, ws)) :
    (out.reward = if pf then raw_reward (EB.winner out.s)
        else -(raw_reward (EB.winner out.s))) ∧
    (EB.winner out.s = none → out.reward = 0) ∧
    (EB.winner out.s = some PlayerOrder.FIRST →
        out.reward = if pf then 1 else -1) ∧
    (EB.winner out.s = some PlayerOrder.SECOND →
        out.reward = if pf then -1 else 1) ∧
    (∃ raw : ℚ, r = (if pfd then raw else -raw) ∧
      (done = false → raw = 0) ∧
      (done = true → raw = np_mean env2.results)) := by
  have hbattle : out.reward = if pf then raw_reward (EB.winner out.s)
      else -(raw_reward (EB.winner out.s)) := by
    unfold LOCMBattleSingleEnv_step at hb
    cases hstep : LOCMBattleEnv_step EB s input with
    | error e =>
      rw [hstep] at hb
      cases hb
    | ok out0 =>
      rw [hstep] at hb
      injection hb with hb
      obtain ⟨a, ha⟩ := battle_env_step_ok_shape EB s input out0 hstep
      have hinvar := opponent_loop_invariant EB π (EB.current_player s) fuel out0
        (by rw [ha]; exact (battle_step_core_reward_raw EB s a).1)
        (by rw [ha]; exact (battle_step_core_reward_raw EB s a).2)
      have hout : out = { (opponent_loop EB π (EB.current_player s) fuel out0).1 with
          invalid := out0.invalid,
          reward := if pf
            then (opponent_loop EB π (EB.current_player s) fuel out0).1.reward
            else -(opponent_loop EB π (EB.current_player s) fuel out0).1.reward } :=
        (congrArg Prod.fst hb).symm
      rw [hout]
      show (if pf then _ else _) = _
      rw [hinvar.1]
  refine ⟨hbattle, ?_, ?_, ?_, ?_⟩
  · intro hw
    rw [hbattle, hw]
    cases pf <;> simp [raw_reward]
  · intro hw
    rw [hbattle, hw]
    cases pf <;> simp [raw_reward]
  · intro hw
    rw [hbattle, hw]
    cases pf <;> simp [raw_reward]
  · unfold LOCMDraftSingleEnv_step at hd
    cases pfd with
    | true =>
      rw [if_pos rfl] at hd
      cases h1 : LOCMDraftEnv_step P E A decode env inputd with
      | error e =>
        rw [h1] at hd
        cases hd
      | ok t1 =>
        obtain ⟨e1, r1, d1, w1⟩ := t1
        rw [h1] at hd
        dsimp only at hd
        have hchar := draft_step_reward_char P E A decode e1
          (.action (agent e1.s)) env2 r done ws hd
        exact ⟨r, by simp, hchar.1, hchar.2⟩
    | false =>
      rw [if_neg (by simp)] at hd
      cases h1 : LOCMDraftEnv_step P E A decode env (.action (agent env.s)) with
      | error e =>
        rw [h1] at hd
        cases hd
      | ok t1 =>
        obtain ⟨e1, r1, d1, w1⟩ := t1
        rw [h1] at hd
        dsimp only at hd
        cases h2 : LOCMDraftEnv_step P E A decode e1 inputd with
        | error e =>
          rw [h2] at hd
          cases hd
        | ok t2 =>
          obtain ⟨e2, r2, d2, w2⟩ := t2
          rw [h2] at hd
          dsimp only at hd
          injection hd with hd
          injection hd with hd1 hd2
          injection hd2 with hd2 hd3
          injection hd3 with hd3 hd4
          subst hd1 hd2 hd3 hd4
          have hchar := draft_step_reward_char P E A decode e1 inputd e2 r2 d2 w2 h2
          exact ⟨r2, by simp, hchar.1, hchar.2⟩

/-- The battle step result the C4 witness instance produces. -/
def testBattleOut : BattleStepResult Nat :=
  { s := 2, reward := 0, done := false, invalid := false }

/-- The draft environment record the C4 witness instance produces after
the learner picked hand index 1 and the scripted agent hand index 0. -/
def testDraftEnvAfterTwoPicks : DraftEnvState Nat Nat :=
  { s := 2, choices := ([⟨2, 1⟩], [⟨1, 0⟩]), draft_ordering := [0, 1, 2]
    results := [], rewards := [0], agents := 0 }

/-- Witness for C4 (amended): a concrete battle step (no winner yet,
reward 0) and a concrete non-terminal draft step, learner playing first
in both. -/
theorem learner_perspective_reward_witness :
    LOCMBattleSingleEnv_step testBattleEngine (fun _ => some 0) true 4 0
        (.pyObject (.ok 0))
      = .ok (testBattleOut, 0) ∧
    LOCMDraftSingleEnv_step testDraftParams testDraftEngineLong testBattleAgents
        testDecode testDraftAgent true (testDraftEnv 0) (.pyObject (.ok 1))
      = .ok (testDraftEnvAfterTwoPicks, 0, false, []) ∧
    (testBattleOut.reward
        = if true then raw_reward (testBattleEngine.winner testBattleOut.s)
          else -(raw_reward (testBattleEngine.winner testBattleOut.s))) ∧
    (∃ raw : ℚ, (0 : ℚ) = (if true then raw else -raw) ∧
      (false = false → raw = 0) ∧
      (false = true → raw = np_mean testDraftEnvAfterTwoPicks.results)) := by
  have h := learner_perspective_reward testBattleEngine (fun _ => some 0) true 4 0
    (.pyObject (.ok 0)) testBattleOut 0
    testDraftParams testDraftEngineLong testBattleAgents testDecode testDraftAgent
    true (testDraftEnv 0) (.pyObject (.ok 1))
    testDraftEnvAfterTwoPicks 0 false [] rfl rfl
  exact ⟨rfl, rfl, h.1, h.2.2.2.2⟩

/-- Counterexample to C4 as stated: in the draft single-opponent
environment with `evaluation_battles = 3` and trial outcomes
`[1, 1, -1]`, the winner-deciding step returns reward `-(1/3)` (learner
playing second), which is neither `+1` nor `-1`. -/
theorem draft_terminal_reward_counterexample :
    (LOCMDraftSingleEnv_step testDraftParams testDraftEngine testBattleAgents
        testDecode testDraftAgent false (testDraftEnv 0)
        (.pyObject (.ok 0))).toOption.map (fun t => (t.2.1, t.2.2.1))
      = some (-(np_mean [1, 1, -1]), true) ∧
    -(np_mean [1, 1, -1]) = -(1 / 3 : ℚ) ∧
    ¬(-(np_mean [1, 1, -1]) = (1 : ℚ) ∨ -(np_mean [1, 1, -1]) = (-1 : ℚ)) := by
  refine ⟨rfl, ?_, ?_⟩
  · norm_num [np_mean, List.sum_cons, List.sum_nil]
  · norm_num [np_mean, List.sum_cons, List.sum_nil]

/-! ## C10: self-play reset alternation -/

/-- C10: every `LOCMBattleSelfPlayEnv.reset()` negates `play_first`
before any opening opponent move is played — the opening loop runs
exactly when the negated flag says the learner now plays second, i.e.
when the pre-reset flag was `true` — so across consecutive episodes the
learner alternates sides, and the first episode after construction is
played with the opposite of the constructed `play_first` value. -/
theorem self_play_reset_alternates {σ BAction : Type}
    (E : BattleEngine σ BAction) (π : σ → Option BAction) (fuel : Nat)
    (play_first : Bool) (fresh : σ) :
    (LOCMBattleSelfPlayEnv_reset E π fuel play_first fresh).1 = ! play_first ∧
    (LOCMBattleSelfPlayEnv_reset E π fuel play_first fresh).2
      = (if play_first then (opening_loop E π fuel fresh).1 else fresh) ∧
    ∀ m : Nat,
      (fun b => (LOCMBattleSelfPlayEnv_reset E π fuel b fresh).1)^[m] play_first
        = xor play_first (decide (m % 2 = 1)) := by
  refine ⟨by cases play_first <;> rfl, by cases play_first <;> rfl, ?_⟩
  intro m
  induction m with
  | zero => simp
  | succ p ih =>
    rw [Function.iterate_succ_apply', ih]
    have hmod : ((p + 1) % 2 = 1) ↔ ¬(p % 2 = 1) := by omega
    have hflip : (LOCMBattleSelfPlayEnv_reset E π fuel
        (xor play_first (decide (p % 2 = 1))) fresh).1
        = ! xor play_first (decide (p % 2 = 1)) := by
      cases h : xor play_first (decide (p % 2 = 1)) <;> rfl
    rw [hflip]
    cases play_first <;> by_cases hp : p % 2 = 1 <;> simp [hp, hmod]

/-! ## Draft observation assembler (`LOCMDraftEnv._encode_state_draft`,
draft.py 177-217) -/

/-- Numpy slice assignment `v[start : start + len(xs)] = xs` on a flat
buffer.  The source writes with negative offsets `lo = -(cards_back) *
card_features` relative to the buffer's end; the callers below pass the
equivalent nonnegative start index `draft_state_shape P + lo`. -/
def set_slice (v : List ℤ) (start : Nat) (xs : List ℤ) : List ℤ :=
  v.take start ++ xs ++ v.drop (start + xs.length)

/-- `sorted(cards, key=lambda c: c.id)` (draft.py 203-204; Python's
stable sort, by card identifier). -/
def sorted_by_id (cards : List Card) : List Card :=
  cards.mergeSort (fun a b => Nat.ble a.id b.id)

/-- `self.draft_ordering = list(range(self.k))`, re-sorted by the id of
the offered card at each position when `sort_cards` is on (draft.py
185-192). -/
def draft_ordering_of (P : LOCMDraftParams) (card_choices : List Card) :
    List Nat :=
  if P.sort_cards then
    (List.range P.k).mergeSort (fun p q =>
      Nat.ble (card_choices.getD p dummy_card).id
        (card_choices.getD q dummy_card).id)
  else
    List.range P.k

/-- `chosen_cards` as seen after the history block (draft.py 202-204):
the local is rebound to its sorted copy only when both
`use_draft_history` and `sort_cards` hold, and the mana-curve loop then
iterates over the rebound list. -/
def history_cards (P : LOCMDraftParams) (chosen_cards : List Card) :
    List Card :=
  if P.use_draft_history ∧ P.sort_cards then sorted_by_id chosen_cards
  else chosen_cards

/-- First stage of `_encode_state_draft` (draft.py 178-200): a zero
buffer of the declared shape, into which — while the draft is
unfinished — the `k` offered cards (`hand[0:k]`) are written at the
end-relative offsets `lo = -(k - i) * card_features`, each through the
draft ordering. -/
def encode_choice_stage (P : LOCMDraftParams) (encode_card : Card → List ℤ)
    (hand : List Card) (draft_finished : Bool) : List ℤ :=
  if draft_finished then List.replicate (draft_state_shape P) 0
  else
    (List.range (hand.take P.k).length).foldl
      (fun v i =>
        set_slice v (draft_state_shape P - (P.k - i) * card_features)
          (encode_card ((hand.take P.k).getD
            ((draft_ordering_of P (hand.take P.k)).getD i 0) dummy_card)))
      (List.replicate (draft_state_shape P) 0)

/-- Second stage (draft.py 202-211): when the draft history is enabled,
the (optionally re-sorted) chosen cards are written oldest-first at the
end-relative offsets `lo = -(n + k - j) * card_features`. -/
def encode_history_stage (P : LOCMDraftParams) (encode_card : Card → List ℤ)
    (chosen_cards : List Card) (v1 : List ℤ) : List ℤ :=
  if P.use_draft_history then
    (List.range (history_cards P chosen_cards).length).foldl
      (fun v j =>
        set_slice v (draft_state_shape P - (P.n + P.k - j) * card_features)
          (encode_card ((history_cards P chosen_cards).getD j dummy_card)))
      v1
  else v1

/-- Third stage (draft.py 213-215): when the mana curve is enabled,
`encoded_state[chosen_card.cost] += 1` for every chosen card — a
nonnegative index, i.e. counted at index `cost` from the FRONT of the
buffer. -/
def encode_mana_stage (P : LOCMDraftParams) (chosen_cards : List Card)
    (v2 : List ℤ) : List ℤ :=
  if P.use_mana_curve then
    (history_cards P chosen_cards).foldl
      (fun v c => v.set c.cost (v.getD c.cost 0 + 1)) v2
  else v2

/-- `LOCMDraftEnv._encode_state_draft` (draft.py 177-217), over the
abstract per-card feature encoder of the base class: the three stages
above in source order. -/
def _encode_state_draft (P : LOCMDraftParams) (encode_card : Card → List ℤ)
    (chosen_cards : List Card) (hand : List Card) (draft_finished : Bool) :
    List ℤ :=
  encode_mana_stage P chosen_cards
    (encode_history_stage P encode_card chosen_cards
      (encode_choice_stage P encode_card hand draft_finished))

theorem set_slice_length (v xs : List ℤ) (start : Nat)
    (h : start + xs.length ≤ v.length) :
    (set_slice v start xs).length = v.length := by
  simp only [set_slice, List.length_append, List.length_take, List.length_drop]
  omega

theorem set_slice_take_length (v xs : List ℤ) (start : Nat)
    (hs : start + xs.length ≤ v.length) :
    (v.take start).length = start := by
  simp only [List.length_take]
  omega

theorem set_slice_front_length (v xs : List ℤ) (start : Nat)
    (hs : start + xs.length ≤ v.length) :
    (v.take start ++ xs).length = start + xs.length := by
  rw [List.length_append, set_slice_take_length v xs start hs]

theorem set_slice_getD_lt (v xs : List ℤ) (start j : Nat)
    (hs : start + xs.length ≤ v.length) (hj : j < start) :
    (set_slice v start xs).getD j 0 = v.getD j 0 := by
  simp only [set_slice, List.getD_eq_getElem?_getD]
  rw [@List.getElem?_append _ (v.take start ++ xs) (v.drop (start + xs.length)) j,
    if_pos (by rw [set_slice_front_length v xs start hs]; omega),
    @List.getElem?_append _ (v.take start) xs j,
    if_pos (by rw [set_slice_take_length v xs start hs]; omega),
    List.getElem?_take, if_pos hj]

theorem set_slice_getD_in (v xs : List ℤ) (start j : Nat)
    (hs : start + xs.length ≤ v.length) (hj1 : start ≤ j)
    (hj2 : j < start + xs.length) :
    (set_slice v start xs).getD j 0 = xs.getD (j - start) 0 := by
  simp only [set_slice, List.getD_eq_getElem?_getD]
  rw [@List.getElem?_append _ (v.take start ++ xs) (v.drop (start + xs.length)) j,
    if_pos (by rw [set_slice_front_length v xs start hs]; omega),
    @List.getElem?_append_right _ (v.take start) xs j
      (by rw [set_slice_take_length v xs start hs]; omega),
    set_slice_take_length v xs start hs]

theorem set_slice_getD_ge (v xs : List ℤ) (start j : Nat)
    (hs : start + xs.length ≤ v.length) (hj : start + xs.length ≤ j) :
    (set_slice v start xs).getD j 0 = v.getD j 0 := by
  simp only [set_slice, List.getD_eq_getElem?_getD]
  rw [@List.getElem?_append_right _ (v.take start ++ xs)
      (v.drop (start + xs.length)) j
      (by rw [set_slice_front_length v xs start hs]; omega),
    set_slice_front_length v xs start hs, List.getElem?_drop]
  congr 2
  omega

theorem foldl_congr_mem {α : Type} {l : List Nat} {f g : α → Nat → α} :
    ∀ {v : α}, (∀ v i, i ∈ l → f v i = g v i) → l.foldl f v = l.foldl g v := by
  induction l with
  | nil => intro v _; rfl
  | cons hd tl ih =>
    intro v h
    simp only [List.foldl_cons]
    rw [h v hd (List.mem_cons_self hd tl)]
    exact ih fun v i hi => h v i (List.mem_cons_of_mem hd hi)

/-- Characterisation of a fold of width-`w` slice writes at the
monotone start positions `base + i * w`: the length is preserved, each
block holds its payload, and every position outside `[base, base + m*w)`
is untouched. -/
theorem write_blocks_spec (payload : Nat → List ℤ) (base w : Nat)
    (v0 : List ℤ) :
    ∀ (m : Nat), (∀ i, i < m → (payload i).length = w) →
      base + m * w ≤ v0.length →
      ((List.range m).foldl
          (fun v i => set_slice v (base + i * w) (payload i)) v0).length
        = v0.length ∧
      (∀ i t, i < m → t < w →
        ((List.range m).foldl
            (fun v i => set_slice v (base + i * w) (payload i)) v0).getD
            (base + i * w + t) 0
          = (payload i).getD t 0) ∧
      (∀ p, (p < base ∨ base + m * w ≤ p) →
        ((List.range m).foldl
            (fun v i => set_slice v (base + i * w) (payload i)) v0).getD p 0
          = v0.getD p 0) := by
  intro m
  induction m with
  | zero =>
    intro _ _
    refine ⟨rfl, ?_, fun p _ => rfl⟩
    intro i t hi _
    cases hi
  | succ q ih =>
    intro hlen hbound
    obtain ⟨ihlen, ihin, ihout⟩ := ih (fun i hi => hlen i (by omega)) (by nlinarith)
    have hq : q * w + w = (q + 1) * w := by ring
    have hstep : (List.range (q + 1)).foldl
        (fun v i => set_slice v (base + i * w) (payload i)) v0
        = set_slice ((List.range q).foldl
            (fun v i => set_slice v (base + i * w) (payload i)) v0)
          (base + q * w) (payload q) := by
      rw [List.range_succ, List.foldl_append, List.foldl_cons, List.foldl_nil]
    have hslen : (base + q * w) + (payload q).length
        ≤ ((List.range q).foldl
            (fun v i => set_slice v (base + i * w) (payload i)) v0).length := by
      rw [ihlen, hlen q (by omega)]
      omega
    refine ⟨?_, ?_, ?_⟩
    · rw [hstep, set_slice_length _ _ _ hslen, ihlen]
    · intro i t hi ht
      rw [hstep]
      by_cases hiq : i = q
      · subst hiq
        rw [set_slice_getD_in _ _ _ _ hslen (by omega)
            (by rw [hlen i (by omega)]; omega)]
        congr 1
        omega
      · have hlt : base + i * w + t < base + q * w := by
          have : i + 1 ≤ q := by omega
          nlinarith
        rw [set_slice_getD_lt _ _ _ _ hslen hlt]
        exact ihin i t (by omega) ht
    · intro p hp
      rw [hstep]
      rcases hp with hp | hp
      · rw [set_slice_getD_lt _ _ _ _ hslen (by omega)]
        exact ihout p (Or.inl hp)
      · rw [set_slice_getD_ge _ _ _ _ hslen
            (by rw [hlen q (by omega)]; omega)]
        exact ihout p (Or.inr (by nlinarith))

theorem mana_fold_length (l : List Card) :
    ∀ v : List ℤ,
      (l.foldl (fun v c => v.set c.cost (v.getD c.cost 0 + 1)) v).length
        = v.length := by
  induction l with
  | nil => intro v; rfl
  | cons c tl ih =>
    intro v
    simp only [List.foldl_cons]
    rw [ih]
    exact List.length_set ..

theorem getD_set_int (v : List ℤ) (i j : Nat) (a : ℤ) (hi : i < v.length) :
    (v.set i a).getD j 0 = if i = j then a else v.getD j 0 := by
  simp only [List.getD_eq_getElem?_getD, List.getElem?_set]
  by_cases hij : i = j
  · rw [if_pos hij, if_pos hij, if_pos hi]
    rfl
  · rw [if_neg hij, if_neg hij]

theorem mana_fold_getD (l : List Card) :
    ∀ (v : List ℤ) (p : Nat), p < v.length → (∀ c ∈ l, c.cost < v.length) →
      (l.foldl (fun v c => v.set c.cost (v.getD c.cost 0 + 1)) v).getD p 0
        = v.getD p 0 + (l.countP (fun c => c.cost == p) : ℤ) := by
  induction l with
  | nil =>
    intro v p _ _
    simp
  | cons c tl ih =>
    intro v p hp hc
    simp only [List.foldl_cons]
    rw [ih (v.set c.cost (v.getD c.cost 0 + 1)) p
        (by rw [List.length_set]; exact hp)
        (by intro d hd; rw [List.length_set]
            exact hc d (List.mem_cons_of_mem c hd)),
      getD_set_int v c.cost p _ (hc c (List.mem_cons_self c tl)),
      List.countP_cons]
    by_cases hcp : c.cost = p
    · rw [if_pos hcp, if_pos (by simp [hcp]), hcp]
      push_cast
      ring
    · rw [if_neg hcp, if_neg (by simp [hcp])]
      push_cast
      ring

theorem getD_replicate_zero (n p : Nat) :
    (List.replicate n (0 : ℤ)).getD p 0 = 0 := by
  rw [List.getD_eq_getElem?_getD, List.getElem?_replicate]
  by_cases h : p < n
  · rw [if_pos h]
    rfl
  · rw [if_neg h]
    rfl

theorem cards_in_state_ge_k (P : LOCMDraftParams) :
    P.k ≤ cards_in_state P := by
  unfold cards_in_state
  split <;> omega

theorem k_card_features_le_shape (P : LOCMDraftParams) :
    P.k * card_features ≤ draft_state_shape P := by
  have h2 : P.k * card_features ≤ cards_in_state P * card_features :=
    Nat.mul_le_mul_right _ (cards_in_state_ge_k P)
  unfold draft_state_shape
  omega

theorem encode_choice_stage_spec (P : LOCMDraftParams)
    (enc : Card → List ℤ) (hand : List Card) (fin : Bool)
    (hw : ∀ c, (enc c).length = 16) :
    (encode_choice_stage P enc hand fin).length = draft_state_shape P ∧
    (∀ p, p < draft_state_shape P - P.k * card_features →
      (encode_choice_stage P enc hand fin).getD p 0 = 0) ∧
    (fin = false → ∀ i t, i < (hand.take P.k).length → t < 16 →
      (encode_choice_stage P enc hand fin).getD
          (draft_state_shape P - (P.k - i) * card_features + t) 0
        = (enc ((hand.take P.k).getD
            ((draft_ordering_of P (hand.take P.k)).getD i 0) dummy_card)).getD
            t 0) := by
  have hkS := k_card_features_le_shape P
  have hcf : card_features = 16 := rfl
  cases fin with
  | true =>
    refine ⟨by simp [encode_choice_stage], ?_, ?_⟩
    · intro p _
      exact getD_replicate_zero _ p
    · intro h
      cases h
  | false =>
    have hm : (hand.take P.k).length ≤ P.k := by
      simp [List.length_take]
    have hcongr : encode_choice_stage P enc hand false
        = (List.range (hand.take P.k).length).foldl
            (fun v i => set_slice v
              ((draft_state_shape P - P.k * card_features) + i * 16)
              (enc ((hand.take P.k).getD
                ((draft_ordering_of P (hand.take P.k)).getD i 0) dummy_card)))
            (List.replicate (draft_state_shape P) 0) := by
      unfold encode_choice_stage
      rw [if_neg (by simp)]
      refine foldl_congr_mem ?_
      intro v i hi
      have hik : i < P.k := lt_of_lt_of_le (List.mem_range.1 hi) hm
      congr 1
      rw [hcf] at hkS ⊢
      omega
    obtain ⟨hl, hin, hout⟩ := write_blocks_spec
      (fun i => enc ((hand.take P.k).getD
        ((draft_ordering_of P (hand.take P.k)).getD i 0) dummy_card))
      (draft_state_shape P - P.k * card_features) 16
      (List.replicate (draft_state_shape P) 0)
      (hand.take P.k).length (fun i _ => hw _)
      (by simp only [List.length_replicate]; rw [hcf] at hkS ⊢; omega)
    refine ⟨by rw [hcongr, hl]; simp, ?_, ?_⟩
    · intro p hp
      rw [hcongr, hout p (Or.inl hp)]
      exact getD_replicate_zero _ p
    · intro _ i t hi ht
      rw [hcongr]
      have harith : draft_state_shape P - (P.k - i) * card_features + t
          = (draft_state_shape P - P.k * card_features) + i * 16 + t := by
        have hik : i < P.k := lt_of_lt_of_le hi hm
        rw [hcf] at hkS ⊢
        omega
      rw [harith]
      exact hin i t hi ht

theorem encode_history_stage_spec (P : LOCMDraftParams)
    (enc : Card → List ℤ) (chosen : List Card) (v1 : List ℤ)
    (hw : ∀ c, (enc c).length = 16)
    (hlen1 : v1.length = draft_state_shape P)
    (hn : (history_cards P chosen).length ≤ P.n) :
    (encode_history_stage P enc chosen v1).length = draft_state_shape P ∧
    (∀ p, (P.use_draft_history = true →
        (p < draft_state_shape P - (P.n + P.k) * card_features ∨
          draft_state_shape P - P.k * card_features ≤ p)) →
      (encode_history_stage P enc chosen v1).getD p 0 = v1.getD p 0) ∧
    (P.use_draft_history = true →
      ∀ j t, j < (history_cards P chosen).length → t < 16 →
      (encode_history_stage P enc chosen v1).getD
          (draft_state_shape P - (P.n + P.k - j) * card_features + t) 0
        = (enc ((history_cards P chosen).getD j dummy_card)).getD t 0) := by
  have hcf : card_features = 16 := rfl
  cases hhist : P.use_draft_history with
  | false =>
    refine ⟨by simp [encode_history_stage, hhist, hlen1], ?_, ?_⟩
    · intro p _
      simp [encode_history_stage, hhist]
    · intro h
      cases h
  | true =>
    have hS : draft_state_shape P
        = (P.n + P.k) * card_features + (if P.use_mana_curve then 13 else 0) := by
      unfold draft_state_shape cards_in_state
      rw [hhist]
      simp
    have hnkS : (P.n + P.k) * card_features ≤ draft_state_shape P := by
      rw [hS]
      omega
    have hcongr : encode_history_stage P enc chosen v1
        = (List.range (history_cards P chosen).length).foldl
            (fun v j => set_slice v
              ((draft_state_shape P - (P.n + P.k) * card_features) + j * 16)
              (enc ((history_cards P chosen).getD j dummy_card)))
            v1 := by
      unfold encode_history_stage
      rw [if_pos hhist]
      refine foldl_congr_mem ?_
      intro v j hj
      have hjn : j < P.n := lt_of_lt_of_le (List.mem_range.1 hj) hn
      congr 1
      rw [hcf] at hnkS ⊢
      omega
    obtain ⟨hl, hin, hout⟩ := write_blocks_spec
      (fun j => enc ((history_cards P chosen).getD j dummy_card))
      (draft_state_shape P - (P.n + P.k) * card_features) 16
      v1 (history_cards P chosen).length (fun j _ => hw _)
      (by rw [hlen1, hcf] at *; omega)
    refine ⟨by rw [hcongr, hl, hlen1], ?_, ?_⟩
    · intro p hp
      rw [hcongr]
      refine hout p ?_
      rcases hp rfl with hp1 | hp1
      · exact Or.inl hp1
      · refine Or.inr ?_
        rw [hcf] at *
        omega
    · intro _ j t hj ht
      rw [hcongr]
      have harith : draft_state_shape P - (P.n + P.k - j) * card_features + t
          = (draft_state_shape P - (P.n + P.k) * card_features) + j * 16 + t := by
        have hjn : j < P.n := lt_of_lt_of_le hj hn
        rw [hcf] at hnkS ⊢
        omega
      rw [harith]
      exact hin j t hj ht

/-- C1 (amended): whenever the mana-curve feature is enabled, the
13-slot mana-curve block occupies the FIRST 13 indices of the
observation (slot `c` holding the count of cards of cost `c` in the
acting player's choice history), the history block (if enabled) follows
it, written at the end-relative offsets `-(n + k - j)·16`, and the
current-choice block occupies the last `k·16` positions, written at the
end-relative offsets `-(k - i)·16` through the draft ordering. -/
theorem draft_observation_mana_curve_layout (P : LOCMDraftParams)
    (enc : Card → List ℤ) (chosen : List Card) (hand : List Card) (fin : Bool)
    (hmana : P.use_mana_curve = true)
    (hw : ∀ c, (enc c).length = 16)
    (hcost : ∀ c ∈ chosen, c.cost ≤ 12)
    (hn : chosen.length ≤ P.n) :
    (_encode_state_draft P enc chosen hand fin).length = draft_state_shape P ∧
    (∀ p, p < 13 →
      (_encode_state_draft P enc chosen hand fin).getD p 0
        = (chosen.countP (fun c => c.cost == p) : ℤ)) ∧
    (fin = false → ∀ i t, i < (hand.take P.k).length → t < 16 →
      (_encode_state_draft P enc chosen hand fin).getD
          (draft_state_shape P - (P.k - i) * card_features + t) 0
        = (enc ((hand.take P.k).getD
            ((draft_ordering_of P (hand.take P.k)).getD i 0) dummy_card)).getD
            t 0) ∧
    (P.use_draft_history = true →
      ∀ j t, j < (history_cards P chosen).length → t < 16 →
      (_encode_state_draft P enc chosen hand fin).getD
          (draft_state_shape P - (P.n + P.k - j) * card_features + t) 0
        = (enc ((history_cards P chosen).getD j dummy_card)).getD t 0) := by
  have hcf : card_features = 16 := rfl
  have hperm : (history_cards P chosen).Perm chosen := by
    unfold history_cards
    split
    · exact List.mergeSort_perm chosen _
    · exact List.Perm.refl chosen
  have hhlen : (history_cards P chosen).length = chosen.length := hperm.length_eq
  have hhcost : ∀ c ∈ history_cards P chosen, c.cost ≤ 12 := by
    intro c hc
    exact hcost c (hperm.mem_iff.1 hc)
  have hkS := k_card_features_le_shape P
  have h13 : 13 ≤ draft_state_shape P - P.k * card_features ∧
      13 ≤ draft_state_shape P := by
    have h2 : P.k * card_features ≤ cards_in_state P * card_features :=
      Nat.mul_le_mul_right _ (cards_in_state_ge_k P)
    unfold draft_state_shape
    rw [if_pos hmana]
    omega
  obtain ⟨hC_len, hC_zero, hC_in⟩ := encode_choice_stage_spec P enc hand fin hw
  obtain ⟨hH_len, hH_pres, hH_in⟩ := encode_history_stage_spec P enc chosen
    (encode_choice_stage P enc hand fin) hw hC_len (by omega)
  have hmanaeq : _encode_state_draft P enc chosen hand fin
      = (history_cards P chosen).foldl
          (fun v c => v.set c.cost (v.getD c.cost 0 + 1))
          (encode_history_stage P enc chosen
            (encode_choice_stage P enc hand fin)) := by
    unfold _encode_state_draft encode_mana_stage
    rw [if_pos hmana]
  have hcost_len : ∀ c ∈ history_cards P chosen,
      c.cost < (encode_history_stage P enc chosen
        (encode_choice_stage P enc hand fin)).length := by
    intro c hc
    rw [hH_len]
    have := hhcost c hc
    omega
  have hlen : (_encode_state_draft P enc chosen hand fin).length
      = draft_state_shape P := by
    rw [hmanaeq, mana_fold_length, hH_len]
  have hhistbase : P.use_draft_history = true →
      draft_state_shape P - (P.n + P.k) * card_features = 13 := by
    intro hh
    unfold draft_state_shape cards_in_state
    rw [hh, hmana]
    simp
  refine ⟨hlen, ?_, ?_, ?_⟩
  · -- mana-curve counts at the first 13 indices
    intro p hp
    rw [hmanaeq, mana_fold_getD (history_cards P chosen) _ p
        (by rw [hH_len]; omega) hcost_len]
    rw [hH_pres p (fun hh => Or.inl (by rw [hhistbase hh]; omega)),
      hC_zero p (by omega), hperm.countP_eq]
    simp
  · -- current-choice block in the last k·16 positions
    intro hfin i t hi ht
    have hik : i < P.k := by
      have : (hand.take P.k).length ≤ P.k := by simp [List.length_take]
      omega
    have hppos : draft_state_shape P - P.k * card_features
        ≤ draft_state_shape P - (P.k - i) * card_features + t := by
      rw [hcf] at *
      omega
    have hplt : draft_state_shape P - (P.k - i) * card_features + t
        < draft_state_shape P := by
      rw [hcf] at *
      omega
    rw [hmanaeq, mana_fold_getD (history_cards P chosen) _ _
        (by rw [hH_len]; omega) hcost_len]
    rw [hH_pres _ (fun _ => Or.inr hppos), hC_in hfin i t hi ht]
    rw [List.countP_eq_zero.2 ?_]
    · simp
    · intro c hc
      have h1 := hhcost c hc
      simp only [beq_iff_eq]
      omega
  · -- history block after the mana block
    intro hh j t hj ht
    have hnkS : (P.n + P.k) * card_features ≤ draft_state_shape P := by
      have := hhistbase hh
      rw [hcf] at *
      omega
    have hjn : j < P.n := by
      rw [hhlen] at hj
      omega
    have hppos : 13 ≤ draft_state_shape P - (P.n + P.k - j) * card_features + t := by
      have := hhistbase hh
      rw [hcf] at *
      omega
    have hplt : draft_state_shape P - (P.n + P.k - j) * card_features + t
        < draft_state_shape P := by
      rw [hcf] at *
      omega
    rw [hmanaeq, mana_fold_getD (history_cards P chosen) _ _
        (by rw [hH_len]; omega) hcost_len]
    rw [hH_in hh j t hj ht, List.countP_eq_zero.2 ?_]
    · simp
    · intro c hc
      have h1 := hhcost c hc
      simp only [beq_iff_eq]
      omega

/-- Draft parameters with the mana curve enabled and the default
`k = 3`, `n = 30`, no history, no sorting, one evaluation battle. -/
def manaParams : LOCMDraftParams :=
  { use_draft_history := false, use_mana_curve := true, sort_cards := false
    evaluation_battles := 1, k := 3, n := 30 }

/-- Counterexample to C1 as stated: with the mana curve enabled, no
history, `k = 3` (shape `3·16 + 13 = 61`), a finished draft and one
chosen card of cost 5, the claim places the mana-curve block at the very
end of the vector — its cost-5 slot at index `48 + 5 = 53` holding
count 1 — but the source writes `encoded_state[card.cost] += 1` at the
nonnegative index 5, at the FRONT of the buffer: index 5 holds 1 and
index 53 holds 0. -/
theorem mana_curve_position_counterexample :
    draft_state_shape manaParams = 61 ∧
    (_encode_state_draft manaParams (fun _ => List.replicate 16 0)
        [⟨7, 5⟩] [] true).getD 5 0 = 1 ∧
    (_encode_state_draft manaParams (fun _ => List.replicate 16 0)
        [⟨7, 5⟩] [] true).getD 53 0 = 0 := by
  refine ⟨rfl, ?_, ?_⟩ <;> decide

/-- Witness for C1 (amended) at a full-featured concrete configuration:
history, sorting and mana curve all on, `k = 2`, `n = 3`
(shape `5·16 + 13 = 93`), two chosen cards of costs 2 and 0, an
unfinished draft offering two cards. -/
theorem draft_observation_mana_curve_layout_witness :
    (⟨true, true, true, 1, 2, 3⟩ : LOCMDraftParams).use_mana_curve = true ∧
    (∀ c : Card, ((fun c : Card => List.replicate 16 (c.id : ℤ)) c).length = 16) ∧
    (∀ c ∈ [(⟨5, 2⟩ : Card), ⟨1, 0⟩], c.cost ≤ 12) ∧
    ([(⟨5, 2⟩ : Card), ⟨1, 0⟩].length
      ≤ (⟨true, true, true, 1, 2, 3⟩ : LOCMDraftParams).n) ∧
    ((_encode_state_draft ⟨true, true, true, 1, 2, 3⟩
          (fun c => List.replicate 16 (c.id : ℤ)) [⟨5, 2⟩, ⟨1, 0⟩]
          [⟨4, 1⟩, ⟨2, 6⟩] false).length
        = draft_state_shape ⟨true, true, true, 1, 2, 3⟩ ∧
      (∀ p, p < 13 →
        (_encode_state_draft ⟨true, true, true, 1, 2, 3⟩
            (fun c => List.replicate 16 (c.id : ℤ)) [⟨5, 2⟩, ⟨1, 0⟩]
            [⟨4, 1⟩, ⟨2, 6⟩] false).getD p 0
          = ([(⟨5, 2⟩ : Card), ⟨1, 0⟩].countP (fun c => c.cost == p) : ℤ)) ∧
      (false = false → ∀ i t,
        i < ([(⟨4, 1⟩ : Card), ⟨2, 6⟩].take 2).length → t < 16 →
        (_encode_state_draft ⟨true, true, true, 1, 2, 3⟩
            (fun c => List.replicate 16 (c.id : ℤ)) [⟨5, 2⟩, ⟨1, 0⟩]
            [⟨4, 1⟩, ⟨2, 6⟩] false).getD
            (draft_state_shape ⟨true, true, true, 1, 2, 3⟩
              - (2 - i) * card_features + t) 0
          = ((fun c : Card => List.replicate 16 (c.id : ℤ))
              (([(⟨4, 1⟩ : Card), ⟨2, 6⟩].take 2).getD
                ((draft_ordering_of ⟨true, true, true, 1, 2, 3⟩
                  ([(⟨4, 1⟩ : Card), ⟨2, 6⟩].take 2)).getD i 0)
                dummy_card)).getD t 0) ∧
      ((⟨true, true, true, 1, 2, 3⟩ : LOCMDraftParams).use_draft_history = true →
        ∀ j t,
        j < (history_cards ⟨true, true, true, 1, 2, 3⟩
          [(⟨5, 2⟩ : Card), ⟨1, 0⟩]).length → t < 16 →
        (_encode_state_draft ⟨true, true, true, 1, 2, 3⟩
            (fun c => List.replicate 16 (c.id : ℤ)) [⟨5, 2⟩, ⟨1, 0⟩]
            [⟨4, 1⟩, ⟨2, 6⟩] false).getD
            (draft_state_shape ⟨true, true, true, 1, 2, 3⟩
              - (3 + 2 - j) * card_features + t) 0
          = ((fun c : Card => List.replicate 16 (c.id : ℤ))
              ((history_cards ⟨true, true, true, 1, 2, 3⟩
                [(⟨5, 2⟩ : Card), ⟨1, 0⟩]).getD j dummy_card)).getD t 0)) ∧
    (_encode_state_draft ⟨true, true, true, 1, 2, 3⟩
        (fun c => List.replicate 16 (c.id : ℤ)) [⟨5, 2⟩, ⟨1, 0⟩]
        [⟨4, 1⟩, ⟨2, 6⟩] false).getD 2 0 = 1 := by
  have h := draft_observation_mana_curve_layout ⟨true, true, true, 1, 2, 3⟩
    (fun c => List.replicate 16 (c.id : ℤ)) [⟨5, 2⟩, ⟨1, 0⟩]
    [⟨4, 1⟩, ⟨2, 6⟩] false rfl (fun c => by simp) (by decide) (by decide)
  refine ⟨rfl, fun c => by simp, by decide, by decide, h, ?_⟩
  rw [h.2.1 2 (by omega)]
  decide

end GymLocm
